import Mathlib

/-!
Verification of the `repo-linters` Angular schematic utilities.

The development shallowly embeds the TypeScript sources (`src/utils` and
`src/configure-linters/index.ts`) as pure Lean functions:

* JSON documents become the inductive `Json` (objects are insertion-ordered
  association lists, matching JavaScript object key order);
* the schematics `Tree` becomes an association list from paths to file
  contents with `exists` / `read` / `create` / `overwrite` primitives;
* fallible code returns `Except JsError`;
* the external library functions `stripJsonComments` and `JSON.parse`
  (dependencies of the repository, not part of it) are passed in as explicit
  function parameters, so every theorem quantifies over their behaviour;
* thrown `Error` values are modelled by the structured `JsError` type whose
  `message` function reproduces the exact source message strings.
-/

namespace RepoLinters

/-- Untyped JSON document value.  Objects keep their fields as an
insertion-ordered association list, mirroring JavaScript object semantics
(`JSON.parse` and object literals never produce duplicate keys). -/
inductive Json where
  | null : Json
  | bool : Bool → Json
  | num : Int → Json
  | str : String → Json
  | arr : List Json → Json
  | obj : List (String × Json) → Json

/-- The fields of a JSON object. -/
abbrev Fields := List (String × Json)

/-- JavaScript property read on an object's field list: the value of the
first (and in practice only) binding of the key, `undefined` (`none`)
otherwise. -/
def getField : Fields → String → Option Json
  | [], _ => none
  | (k', v) :: fs, k => if k' = k then some v else getField fs k

/-- JavaScript `key in obj` test on a field list. -/
def hasKey : Fields → String → Bool
  | [], _ => false
  | (k', _) :: fs, k => k' = k || hasKey fs k

/-- JavaScript property write `obj[k] = v` on a field list: an existing key
(unique in any list produced by JS) keeps its position and gets the new
value, a fresh key is appended at the end (JS insertion order). -/
def setField : Fields → String → Json → Fields
  | [], k, v => [(k, v)]
  | (k', v') :: fs, k, v =>
      if k' = k then (k, v) :: fs else (k', v') :: setField fs k v

/-- JavaScript `typeof` on a JSON value; note that `typeof null` is
`"object"`. -/
def jsTypeof : Json → String
  | .null => "object"
  | .bool _ => "boolean"
  | .num _ => "number"
  | .str _ => "string"
  | .arr _ => "object"
  | .obj _ => "object"

/-- Property access `j.k` as performed by the source on parsed JSON values:
the field value on objects, `undefined` (`none`) otherwise. -/
def jsGetProp (j : Json) (k : String) : Option Json :=
  match j with
  | .obj fs => getField fs k
  | _ => none

/-- Lower hexadecimal digit, for `\u00XX` escapes. -/
def hexDigit (n : Nat) : Char :=
  if n < 10 then Char.ofNat (48 + n) else Char.ofNat (87 + n)

/-- One character of ECMA-262 `QuoteJSONString`. -/
def escapeChar (c : Char) : String :=
  if c = '"' then "\\\""
  else if c = '\\' then "\\\\"
  else if c = '\n' then "\\n"
  else if c = '\t' then "\\t"
  else if c = '\r' then "\\r"
  else if c.toNat = 8 then "\\b"
  else if c.toNat = 12 then "\\f"
  else if c.toNat < 32 then
    "\\u00" ++ String.singleton (hexDigit (c.toNat / 16)) ++ String.singleton (hexDigit (c.toNat % 16))
  else String.singleton c

/-- ECMA-262 `QuoteJSONString`: the double-quoted, escaped form of a string. -/
def quoteString (s : String) : String :=
  "\"" ++ String.join (s.data.map escapeChar) ++ "\""

mutual

/-- `JSON.stringify(v, null, gap)` with a non-empty `gap`, at current
indentation `ind` (ECMA-262 `SerializeJSONProperty`).  Numbers in the
documents this program builds are integers, rendered as by JS. -/
def stringifyVal (gap ind : String) : Json → String
  | .null => "null"
  | .bool b => if b then "true" else "false"
  | .num n => toString n
  | .str s => quoteString s
  | .arr [] => "[]"
  | .arr (x :: xs) =>
      "[\n" ++ ind ++ gap ++
        String.intercalate (",\n" ++ ind ++ gap) (stringifyList gap (ind ++ gap) (x :: xs)) ++
        "\n" ++ ind ++ "]"
  | .obj [] => "\x7b\x7d"
  | .obj (f :: fs) =>
      "\x7b\n" ++ ind ++ gap ++
        String.intercalate (",\n" ++ ind ++ gap) (stringifyFields gap (ind ++ gap) (f :: fs)) ++
        "\n" ++ ind ++ "\x7d"

/-- The serialized elements of a JSON array, in order. -/
def stringifyList (gap ind : String) : List Json → List String
  | [] => []
  | x :: xs => stringifyVal gap ind x :: stringifyList gap ind xs

/-- The serialized `"key": value` members of a JSON object, in insertion
order. -/
def stringifyFields (gap ind : String) : List (String × Json) → List String
  | [] => []
  | (k, v) :: fs => (quoteString k ++ ": " ++ stringifyVal gap ind v) :: stringifyFields gap ind fs

end

/-- `JSON.stringify(json, null, gap)` at top level. -/
def jsonStringify (gap : String) (j : Json) : String := stringifyVal gap "" j

/-- Source `serializeJson`: two-space pretty printing plus a trailing
newline. -/
def serializeJson (j : Json) : String := jsonStringify "  " j ++ "\n"

/-- Lexicographic comparison of character lists by character code.  This is
the comparison performed by JavaScript's default `Array.prototype.sort` on
strings (UTF-16 code units; identical to code-point order on the
basic-multilingual-plane package names and keys this program sorts). -/
def charListLe : List Char → List Char → Bool
  | [], _ => true
  | _ :: _, [] => false
  | a :: as, b :: bs =>
      if a.toNat < b.toNat then true
      else if b.toNat < a.toNat then false
      else charListLe as bs

/-- String comparison used by `Object.keys(obj).sort()`. -/
def strLe (a b : String) : Bool := charListLe a.data b.data

/-- Insert a key into an already sorted key list (stable). -/
def orderedInsertKey (k : String) : List String → List String
  | [] => [k]
  | x :: xs => if strLe k x then k :: x :: xs else x :: orderedInsertKey k xs

/-- Sorting of the key list.  JavaScript's `sort` is an unspecified stable
sort; since `strLe` is a total preorder in which equivalent strings are
equal, every correct sort produces this very list, so insertion sort is an
exact model. -/
def sortStrings : List String → List String
  | [] => []
  | x :: xs => orderedInsertKey x (sortStrings xs)

/-- Source `sortObjectByKeys`: builds a fresh object whose keys are the
sorted keys of the input, each bound to its value in `obj`.  The `getD`
default is never reached: every sorted key is a key of `obj`. -/
def sortObjectByKeys (o : Fields) : Fields :=
  (sortStrings (o.map Prod.fst)).map (fun k => (k, (getField o k).getD Json.null))

/-- The workspace tree: an association list from paths to file contents. -/
abbrev Tree := List (String × String)

/-- `host.read(path)` (decoded as UTF-8 text), `null`/`none` when absent. -/
def treeRead : Tree → String → Option String
  | [], _ => none
  | (q, c) :: t, p => if q = p then some c else treeRead t p

/-- `host.exists(path)`. -/
def treeExists (t : Tree) (p : String) : Bool := (treeRead t p).isSome

/-- `host.create(path, content)` (the sources only call it on absent
paths). -/
def treeCreate (t : Tree) (p c : String) : Tree := t ++ [(p, c)]

/-- `host.overwrite(path, content)`: replaces the content stored at the
(unique) binding of the path; the sources only call it on existing
paths. -/
def treeOverwrite : Tree → String → String → Tree
  | [], _, _ => []
  | (q, d) :: t, p, c => if q = p then (p, c) :: t else (q, d) :: treeOverwrite t p c

/-- Structured rendering of the `Error` values thrown by the sources. -/
inductive JsError where
  | notFound (path : String)
  | parseError (path : String) (msg : String)
  | typeError (msg : String)
  | userError (msg : String)
deriving DecidableEq

/-- The exact message string of each modelled `Error`. -/
def JsError.message : JsError → String
  | .notFound p => "Cannot find " ++ p
  | .parseError p m => "Cannot parse " ++ p ++ ": " ++ m
  | .typeError m => m
  | .userError m => m

/-- Source `readJsonInTree`, with the external `stripJsonComments` and
`JSON.parse` libraries abstracted as the parameters `strip` and `parse`
(`parse` returns the thrown message on failure).  Missing path: throws
`Cannot find {path}`; parse failure: throws `Cannot parse {path}: {msg}`. -/
def readJsonInTree (strip : String → String) (parse : String → Except String Json)
    (host : Tree) (path : String) : Except JsError Json :=
  match treeRead host path with
  | none => .error (.notFound path)
  | some contents =>
      match parse (strip contents) with
      | .ok j => .ok j
      | .error e => .error (.parseError path e)

/-- Source `updateJsonInTree`: on an absent path, creates the file with the
serialized result of the callback applied to an empty object; on an
existing path, reads it through `readJsonInTree`, applies the callback and
overwrites.  The schematic context passed to the callback is dropped: all
callbacks in this repository ignore it. -/
def updateJsonInTree (strip : String → String) (parse : String → Except String Json)
    (path : String) (callback : Json → Json) (host : Tree) : Except JsError Tree :=
  if !(treeExists host path) then
    .ok (treeCreate host path (serializeJson (callback (.obj []))))
  else
    match readJsonInTree strip parse host path with
    | .error e => .error e
    | .ok j => .ok (treeOverwrite host path (serializeJson (callback j)))

/-- The `options` argument of `addPackageJsonDeps`: a partial record with
the two optional dependency sections (absent = `undefined`). -/
structure DepOptions where
  dependencies : Option (List (String × String))
  devDependencies : Option (List (String × String))

/-- The inner `addDeps(section)` of `addPackageJsonDeps`, acting on the
whole manifest value.  A requested section absent from the options is a
no-op.  Otherwise the source evaluates `section in packageJson`, which
throws a `TypeError` on `null` and on primitives; on an array it sets
properties that are invisible to JSON serialization, so the JSON value is
unchanged.  On an object it ensures the section key exists (fresh keys hold
an empty object) and then writes each requested `name: version` entry into
the section; a primitive-valued section makes the nested property write
throw. -/
def addDeps (sectionName : String) (manifest : Json)
    (requested : Option (List (String × String))) : Except JsError Json :=
  match requested with
  | none => .ok manifest
  | some entries =>
      match manifest with
      | .obj fields =>
          let fields1 := if hasKey fields sectionName then fields
                         else fields ++ [(sectionName, .obj [])]
          match getField fields1 sectionName with
          | some (.obj sf) =>
              .ok (.obj (setField fields1 sectionName
                (.obj (entries.foldl (fun acc e => setField acc e.1 (.str e.2)) sf))))
          | some (.arr _) => .ok (.obj fields1)
          | _ => .error (.typeError ("Cannot create property on the " ++ sectionName ++ " value"))
      | .arr xs => .ok (.arr xs)
      | .null => .error (.typeError ("Cannot use 'in' operator to search for '" ++ sectionName ++ "' in null"))
      | .bool _ => .error (.typeError ("Cannot use 'in' operator to search for '" ++ sectionName ++ "' in a boolean"))
      | .num _ => .error (.typeError ("Cannot use 'in' operator to search for '" ++ sectionName ++ "' in a number"))
      | .str _ => .error (.typeError ("Cannot use 'in' operator to search for '" ++ sectionName ++ "' in a string"))

/-- Source `addPackageJsonDeps`: returns the manifest unchanged when
`typeof packageJson !== 'object'` (strings, numbers, booleans — but not
`null`, whose `typeof` is `"object"`), otherwise merges the requested
`dependencies` and then `devDependencies` sections. -/
def addPackageJsonDeps (packageJson : Json) (options : DepOptions) : Except JsError Json :=
  if jsTypeof packageJson != "object" then .ok packageJson
  else
    match addDeps "dependencies" packageJson options.dependencies with
    | .error e => .error e
    | .ok m1 => addDeps "devDependencies" m1 options.devDependencies

/-- Source `createProjectESLintConfig(prefix)`, transcribed field by field in
source order.  The TS parameter is typed `string`; it is modelled as a
`Json` value because the caller forwards whatever the project descriptor
holds (defaulting to `"app"` only when the property is `undefined`). -/
def createProjectESLintConfig (pfx : Json) : Json :=
  .obj [
    ("root", .bool true),
    ("ignorePatterns", .arr [.str "projects/**/*"]),
    ("overrides", .arr [
      .obj [
        ("files", .arr [.str "*.ts"]),
        ("parserOptions", .obj [
          ("project", .arr [.str "tsconfig.json"]),
          ("createDefaultProgram", .bool true)
        ]),
        ("extends", .arr [
          .str "eslint:recommended",
          .str "plugin:@typescript-eslint/recommended",
          .str "plugin:@typescript-eslint/recommended-requiring-type-checking",
          .str "plugin:rxjs/recommended",
          .str "plugin:@angular-eslint/recommended",
          .str "plugin:@angular-eslint/recommended--extra",
          .str "plugin:@angular-eslint/template/process-inline-templates",
          .str "plugin:import/recommended",
          .str "plugin:import/typescript",
          .str "plugin:prettier/recommended"
        ]),
        ("settings", .obj [
          ("import/resolver", .obj [
            ("typescript", .obj [
              ("alwaysTryTypes", .bool true),
              ("project", .arr [.str "tsconfig.json"])
            ])
          ])
        ]),
        ("rules", .obj [
          ("prettier/prettier", .str "error"),
          ("@angular-eslint/component-selector", .arr [.str "error",
            .obj [("type", .str "element"), ("prefix", pfx), ("style", .str "kebab-case")]]),
          ("@angular-eslint/directive-selector", .arr [.str "error",
            .obj [("type", .str "attribute"), ("prefix", pfx), ("style", .str "camelCase")]]),
          ("@angular-eslint/use-lifecycle-interface", .str "error"),
          ("@typescript-eslint/dot-notation", .str "off"),
          ("@typescript-eslint/explicit-function-return-type", .arr [.str "error",
            .obj [("allowExpressions", .bool true)]]),
          ("@typescript-eslint/explicit-member-accessibility", .arr [.str "error",
            .obj [("accessibility", .str "no-public")]]),
          ("@typescript-eslint/lines-between-class-members", .arr [.str "error", .str "always",
            .obj [("exceptAfterSingleLine", .bool true)]]),
          ("@typescript-eslint/no-inferrable-types", .str "off"),
          ("@typescript-eslint/typedef", .arr [.str "error",
            .obj [
              ("propertyDeclaration", .bool true),
              ("variableDeclaration", .bool true),
              ("parameter", .bool true),
              ("memberVariableDeclaration", .bool true),
              ("arrowParameter", .bool false)
            ]]),
          ("no-shadow", .str "off"),
          ("@typescript-eslint/no-shadow", .str "error"),
          ("@typescript-eslint/no-unused-expressions", .str "error"),
          ("@typescript-eslint/prefer-for-of", .str "error"),
          ("import/no-extraneous-dependencies", .str "error"),
          ("import/order", .str "error"),
          ("import/prefer-default-export", .str "off"),
          ("rxjs/finnish", .arr [.str "error",
            .obj [
              ("functions", .bool true),
              ("methods", .bool true),
              ("names", .obj [
                ("^(canActivate|canActivateChild|canDeactivate|canLoad|intercept|resolve|validate)$", .bool false)
              ]),
              ("parameters", .bool true),
              ("properties", .bool true),
              ("strict", .bool false),
              ("types", .obj [("^EventEmitter$", .bool false)]),
              ("variables", .bool true)
            ]]),
          ("rxjs/no-topromise", .str "error"),
          ("rxjs/suffix-subjects", .arr [.str "error",
            .obj [
              ("parameters", .bool true),
              ("properties", .bool true),
              ("suffix", .str "$"),
              ("types", .obj [("^EventEmitter$", .bool false)]),
              ("variables", .bool true)
            ]]),
          ("curly", .str "error"),
          ("default-case", .str "error"),
          ("eqeqeq", .arr [.str "error", .str "smart"]),
          ("guard-for-in", .str "error"),
          ("no-caller", .str "error"),
          ("no-duplicate-imports", .str "error"),
          ("no-else-return", .arr [.str "error", .obj [("allowElseIf", .bool false)]]),
          ("no-eval", .str "error"),
          ("no-new-wrappers", .str "error"),
          ("no-plusplus", .str "error"),
          ("no-restricted-imports", .arr [.str "error",
            .obj [
              ("paths", .arr [
                .obj [
                  ("name", .str "rxjs/Rx"),
                  ("message", .str "Please import directly from \x27rxjs\x27 instead")
                ]
              ]),
              ("patterns", .arr [
                .obj [
                  ("group", .arr [.str "lodash/*", .str "lodash"]),
                  ("message", .str "Please use lodash-es that uses es modules")
                ]
              ])
            ]]),
          ("no-useless-constructor", .str "error"),
          ("radix", .str "error"),
          ("spaced-comment", .arr [.str "error", .str "always", .obj [("markers", .arr [.str "/"])]])
        ])
      ],
      .obj [
        ("files", .arr [.str "*.html"]),
        ("extends", .arr [.str "plugin:@angular-eslint/template/recommended"]),
        ("rules", .obj [])
      ]
    ])
  ]

/-- Source `createProjectStylelintConfig()`, transcribed in source order. -/
def createProjectStylelintConfig : Json :=
  .obj [
    ("extends", .arr [
      .str "stylelint-config-standard",
      .str "stylelint-config-recommended-scss",
      .str "stylelint-prettier/recommended"
    ]),
    ("plugins", .arr [.str "stylelint-scss", .str "stylelint-order", .str "stylelint-prettier"]),
    ("rules", .obj [
      ("at-rule-no-vendor-prefix", .bool true),
      ("color-named", .str "never"),
      ("declaration-block-no-duplicate-properties", .bool true),
      ("declaration-no-important", .bool true),
      ("font-family-name-quotes", .str "always-where-recommended"),
      ("function-url-quotes", .str "always"),
      ("max-nesting-depth", .num 5),
      ("media-feature-name-no-vendor-prefix", .bool true),
      ("property-no-vendor-prefix", .bool true),
      ("selector-max-id", .num 0),
      ("selector-no-vendor-prefix", .bool true),
      ("selector-pseudo-element-no-unknown", .arr [.bool true,
        .obj [("ignorePseudoElements", .arr [.str "ng-deep"])]]),
      ("value-no-vendor-prefix", .bool true),
      ("order/properties-alphabetical-order", .bool true),
      ("scss/at-each-key-value-single-line", .bool true),
      ("scss/at-else-closing-brace-newline-after", .str "always-last-in-chain"),
      ("scss/at-else-empty-line-before", .str "never"),
      ("scss/at-else-if-parentheses-space-before", .str "always"),
      ("scss/at-extend-no-missing-placeholder", .bool true),
      ("scss/at-function-parentheses-space-before", .str "never"),
      ("scss/at-if-closing-brace-newline-after", .str "always-last-in-chain"),
      ("scss/at-if-closing-brace-space-after", .str "always-intermediate"),
      ("scss/at-if-no-null", .bool true),
      ("scss/at-mixin-argumentless-call-parentheses", .str "never"),
      ("scss/at-mixin-named-arguments", .str "never"),
      ("scss/at-mixin-parentheses-space-before", .str "never"),
      ("scss/comment-no-empty", .bool true),
      ("scss/comment-no-loud", .bool true),
      ("scss/declaration-nested-properties", .str "never"),
      ("scss/dollar-variable-colon-space-after", .str "always"),
      ("scss/dollar-variable-colon-space-before", .str "never"),
      ("scss/dollar-variable-empty-line-after", .arr [.str "always",
        .obj [("except", .arr [.str "last-nested", .str "before-comment", .str "before-dollar-variable"])]]),
      ("scss/dollar-variable-empty-line-before", .arr [.str "always",
        .obj [("except", .arr [.str "first-nested", .str "after-comment", .str "after-dollar-variable"])]]),
      ("scss/dollar-variable-first-in-block", .arr [.bool true,
        .obj [("except", .arr [.str "function"]), ("ignore", .arr [.str "comments", .str "imports"])]]),
      ("scss/dollar-variable-no-missing-interpolation", .bool true),
      ("scss/double-slash-comment-whitespace-inside", .str "always"),
      ("scss/function-quote-no-quoted-strings-inside", .bool true),
      ("scss/function-unquote-no-unquoted-strings-inside", .bool true),
      ("scss/no-duplicate-dollar-variables", .arr [.bool true,
        .obj [("ignoreInside", .arr [.str "nested-at-rule"]), ("ignoreInsideAtRules", .arr [.str "function"])]]),
      ("scss/no-duplicate-mixins", .bool true),
      ("scss/operator-no-newline-after", .bool true),
      ("scss/operator-no-newline-before", .bool true),
      ("scss/operator-no-unspaced", .bool true),
      ("scss/selector-nest-combinators", .str "always"),
      ("scss/selector-no-union-class-name", .bool true),
      ("prettier/prettier", .bool true)
    ])
  ]

/-- Source `createPrettierConfig()`, transcribed in source order. -/
def createPrettierConfig : Json :=
  .obj [
    ("singleQuote", .bool true),
    ("tabWidth", .num 4),
    ("printWidth", .num 120),
    ("trailingComma", .str "none"),
    ("arrowParens", .str "avoid"),
    ("endOfLine", .str "auto"),
    ("attributeGroups", .arr [
      .str "$ANGULAR_ELEMENT_REF",
      .str "$ANGULAR_STRUCTURAL_DIRECTIVE",
      .str "$CLASS",
      .str "$ID",
      .str "$DEFAULT",
      .str "$ANGULAR_ANIMATION",
      .str "$ANGULAR_ANIMATION_INPUT",
      .str "$ANGULAR_INPUT",
      .str "$ANGULAR_TWO_WAY_BINDING",
      .str "$ANGULAR_OUTPUT"
    ])
  ]

/-- Source `updateESLintConfigForProject(projectName)`: reads
`angular.json`, destructures `prefix` (defaulting to `"app"` when the
property is `undefined`) from `projects[projectName]`, then rewrites
`.eslintrc.json` through `updateJsonInTree`.  Missing `projects` or an
unknown project name makes the JS property access / destructuring throw a
`TypeError`. -/
def updateESLintConfigForProject (strip : String → String) (parse : String → Except String Json)
    (projectName : String) (tree : Tree) : Except JsError Tree :=
  match readJsonInTree strip parse tree "angular.json" with
  | .error e => .error e
  | .ok angularJSON =>
      match jsGetProp angularJSON "projects" with
      | none => .error (.typeError "Cannot read properties of undefined")
      | some projectsVal =>
          match jsGetProp projectsVal projectName with
          | none => .error (.typeError "Cannot destructure property of undefined")
          | some projectDesc =>
              updateJsonInTree strip parse ".eslintrc.json"
                (fun _ => createProjectESLintConfig ((jsGetProp projectDesc "prefix").getD (.str "app")))
                tree

/-- Models `join(normalize(root), fname)` from `@angular-devkit/core` for
the plain relative project roots this program handles: a trailing slash of
the root is dropped and the two parts are joined with `/`. -/
def joinNormalize (root fname : String) : String :=
  (if root.endsWith "/" then root.dropRight 1 else root) ++ "/" ++ fname

/-- Source `addStylelintConfigForProject(projectName)`: reads the project
root from `angular.json` and writes `<root>/.stylelintrc.json`.  A missing
`projects` mapping, unknown project, or non-string root makes the JS
destructuring / path normalization throw. -/
def addStylelintConfigForProject (strip : String → String) (parse : String → Except String Json)
    (projectName : String) (tree : Tree) : Except JsError Tree :=
  match readJsonInTree strip parse tree "angular.json" with
  | .error e => .error e
  | .ok angularJSON =>
      match jsGetProp angularJSON "projects" with
      | none => .error (.typeError "Cannot read properties of undefined")
      | some projectsVal =>
          match jsGetProp projectsVal projectName with
          | none => .error (.typeError "Cannot destructure property of undefined")
          | some projectDesc =>
              match jsGetProp projectDesc "root" with
              | some (.str projectRoot) =>
                  updateJsonInTree strip parse (joinNormalize projectRoot ".stylelintrc.json")
                    (fun _ => createProjectStylelintConfig) tree
              | _ => .error (.typeError "Path must be a string")

/-- Source `addPrettierConfigForProject(projectName)`: reads the project
root from `angular.json` and writes `<root>/.prettierrc.json` (the
`console.log` side effect is not part of the tree model). -/
def addPrettierConfigForProject (strip : String → String) (parse : String → Except String Json)
    (projectName : String) (tree : Tree) : Except JsError Tree :=
  match readJsonInTree strip parse tree "angular.json" with
  | .error e => .error e
  | .ok angularJSON =>
      match jsGetProp angularJSON "projects" with
      | none => .error (.typeError "Cannot read properties of undefined")
      | some projectsVal =>
          match jsGetProp projectsVal projectName with
          | none => .error (.typeError "Cannot destructure property of undefined")
          | some projectDesc =>
              match jsGetProp projectDesc "root" with
              | some (.str projectRoot) =>
                  updateJsonInTree strip parse (joinNormalize projectRoot ".prettierrc.json")
                    (fun _ => createPrettierConfig) tree
              | _ => .error (.typeError "Path must be a string")

/-- The dev-dependency table of `addPrettierPackages`, in source order. -/
def prettierDevDeps : List (String × String) :=
  [("prettier", "2.4.1"),
   ("prettier-plugin-organize-attributes", "^0.0.4")]

/-- The dev-dependency table of `addESLintPluginsPackages`, in source
order. -/
def eslintPluginsDevDeps : List (String × String) :=
  [("eslint-plugin-import", "^2.24.2"),
   ("eslint-import-resolver-typescript", "^2.5.0"),
   ("eslint-plugin-rxjs", "^3.3.7"),
   ("eslint-config-prettier", "^8.3.0"),
   ("eslint-plugin-prettier", "^4.0.0")]

/-- The dev-dependency table of `addStylelintPackages`, in source order. -/
def stylelintDevDeps : List (String × String) :=
  [("stylelint", "^13.13.1"),
   ("stylelint-config-prettier", "^8.0.2"),
   ("stylelint-config-standard", "^22.0.0"),
   ("stylelint-config-recommended-scss", "4.3.0"),
   ("stylelint-order", "^4.1.0"),
   ("stylelint-prettier", "^1.2.0"),
   ("stylelint-scss", "^3.21.0")]

/-- The body shared verbatim by `addPrettierPackages`,
`addESLintPluginsPackages` and `addStylelintPackages` (the three sources
are identical except for the dependency table and the logged notice, which
is not part of the tree model): require `package.json` to exist, parse it
with raw `JSON.parse` (no comment stripping; a thrown `SyntaxError`
propagates), merge the requested dev dependencies, replace
`devDependencies` with its key-sorted copy (`Object.keys` on a missing or
primitive section throws), and overwrite the file with
`JSON.stringify(json, null, 4)` — four-space indentation, no trailing
newline.  A non-object section or manifest value is modelled as the
`TypeError` the nested JS operations raise. -/
def addDevDepsPackages (parse : String → Except String Json)
    (table : List (String × String)) (host : Tree) : Except JsError Tree :=
  if !(treeExists host "package.json") then
    .error (.userError "Could not find a `package.json` file at the root of your workspace")
  else
    match treeRead host "package.json" with
    | none => .error (.typeError "null is not an object")
    | some contents =>
        match parse contents with
        | .error m => .error (.parseError "package.json" m)
        | .ok json =>
            match addPackageJsonDeps json ⟨none, some table⟩ with
            | .error e => .error e
            | .ok json1 =>
                match json1 with
                | .obj fs =>
                    match getField fs "devDependencies" with
                    | some (.obj dd) =>
                        .ok (treeOverwrite host "package.json"
                          (jsonStringify "    "
                            (.obj (setField fs "devDependencies" (.obj (sortObjectByKeys dd))))))
                    | _ => .error (.typeError "Cannot convert undefined or null to object")
                | _ => .error (.typeError "Cannot create property on a primitive value")

/-- Source `addPrettierPackages()`. -/
def addPrettierPackages (parse : String → Except String Json) (host : Tree) :
    Except JsError Tree :=
  addDevDepsPackages parse prettierDevDeps host

/-- Source `addESLintPluginsPackages()`. -/
def addESLintPluginsPackages (parse : String → Except String Json) (host : Tree) :
    Except JsError Tree :=
  addDevDepsPackages parse eslintPluginsDevDeps host

/-- Source `addStylelintPackages()`. -/
def addStylelintPackages (parse : String → Except String Json) (host : Tree) :
    Except JsError Tree :=
  addDevDepsPackages parse stylelintDevDeps host

/-- Source `addPackageInstallTask()`: schedules the installer task on the
schematic context (a side channel outside the tree model) and returns the
tree unchanged. -/
def addPackageInstallTask (host : Tree) : Except JsError Tree := .ok host

/-- Source `getWorkspacePath(host)`: the first existing candidate, in the
source's priority order (`undefined`, i.e. `none`, when none exists). -/
def getWorkspacePath (host : Tree) : Option String :=
  (["/workspace.json", "/angular.json", "/.angular.json"].filter
    (fun path => treeExists host path)).head?

/-- JavaScript truthiness of the optional project argument: `undefined` and
the empty string are falsy. -/
def jsOptTruthy : Option String → Bool
  | none => false
  | some s => s != ""

/-- `Object.keys` on a JSON value: field keys of an object in insertion
order, element indices of an array or string, `[]` on other primitives, and
a `TypeError` on `null` (and on `undefined`, encoded by the caller as
`null`). -/
def jsObjectKeys : Json → Except JsError (List String)
  | .null => .error (.typeError "Cannot convert undefined or null to object")
  | .obj fs => .ok (fs.map Prod.fst)
  | .arr xs => .ok ((List.range xs.length).map toString)
  | .str s => .ok ((List.range s.length).map toString)
  | .bool _ => .ok []
  | .num _ => .ok []

/-- Source `determineTargetProjectName(tree, maybeProject)`: a truthy
explicit hint is returned unchanged; otherwise the workspace descriptor is
read from `getWorkspacePath` and the single project name is selected when
`projects` has exactly one key, `null` (`none`) otherwise.  When no
descriptor file exists the source reads path `undefined`, which the
`readJsonInTree` guard turns into the missing-file error. -/
def determineTargetProjectName (strip : String → String) (parse : String → Except String Json)
    (tree : Tree) (maybeProject : Option String) : Except JsError (Option String) :=
  if jsOptTruthy maybeProject then .ok maybeProject
  else
    match getWorkspacePath tree with
    | none => .error (.notFound "undefined")
    | some wp =>
        match readJsonInTree strip parse tree wp with
        | .error e => .error e
        | .ok workspaceJson =>
            match jsObjectKeys ((jsGetProp workspaceJson "projects").getD .null) with
            | .error e => .error e
            | .ok projects =>
                match projects with
                | [p] => .ok (some p)
                | _ => .ok none

/-- The exact message of the error thrown by `configureLinters` when no
project can be resolved: a leading newline plus the trimmed template
literal naming the required command line. -/
def ambiguousProjectMessage : String :=
  "\nError: You must specify a project to add ESLint to because you have multiple projects in your angular.json\nE.g. npx ng g angular-brulex-lint:configure-linters \x7b\x7bYOUR_PROJECT_NAME_GOES_HERE\x7d\x7d"

/-- The `chain([...])` built by `configureLinters` once a project name is
resolved, applied to the tree: the external
`@angular-eslint/schematics:add-eslint-to-project` invocation is the opaque
parameter `ext`, followed by the seven repository rules in source order. -/
def lintersChain (strip : String → String) (parse : String → Except String Json)
    (ext : String → Tree → Except JsError Tree) (projectName : String) (tree : Tree) :
    Except JsError Tree := do
  let t1 ← ext projectName tree
  let t2 ← addPrettierPackages parse t1
  let t3 ← addPrettierConfigForProject strip parse projectName t2
  let t4 ← addESLintPluginsPackages parse t3
  let t5 ← updateESLintConfigForProject strip parse projectName t4
  let t6 ← addStylelintPackages parse t5
  let t7 ← addStylelintConfigForProject strip parse projectName t6
  addPackageInstallTask t7

/-- Source `configureLinters(schema)`: resolve the target project name,
throw the ambiguity error when the resolution is falsy (`null` or the empty
string), and otherwise run the chained rules. -/
def configureLinters (strip : String → String) (parse : String → Except String Json)
    (ext : String → Tree → Except JsError Tree) (schemaProject : Option String) (tree : Tree) :
    Except JsError Tree :=
  match determineTargetProjectName strip parse tree schemaProject with
  | .error e => .error e
  | .ok projectName? =>
      match projectName? with
      | some projectName =>
          if projectName = "" then .error (.userError ambiguousProjectMessage)
          else lintersChain strip parse ext projectName tree
      | none => .error (.userError ambiguousProjectMessage)

/-- Lookup of a package name inside a named section of a manifest: the
value when the section is present and object-shaped, `none` otherwise. -/
def sectionLookup (fields : Fields) (sectionName k : String) : Option Json :=
  match getField fields sectionName with
  | some (.obj sf) => getField sf k
  | _ => none

/-- A requested section can be merged into the manifest: either it is not
requested at all, or the manifest's corresponding field is absent or an
object. -/
def SectionAddable (fields : Fields) (sectionName : String) :
    Option (List (String × String)) → Prop
  | none => True
  | some _ => getField fields sectionName = none ∨
      ∃ sf, getField fields sectionName = some (.obj sf)

/-- The names of a requested section are pairwise distinct (an invariant of
`Object.entries`, whose keys are unique). -/
def EntriesKeysNodup : Option (List (String × String)) → Prop
  | none => True
  | some es => (es.map Prod.fst).Nodup

/-- What merging one requested section into `fields`, yielding `fields'`,
means: an unrequested section is untouched; a requested one becomes an
object holding every requested name at its requested version and all other
names at their value in the original section (in particular `none` when the
section was absent, which the merge first creates as an empty mapping). -/
def MergedSection (fields fields' : Fields) (sectionName : String) :
    Option (List (String × String)) → Prop
  | none => getField fields' sectionName = getField fields sectionName
  | some es => ∃ sf', getField fields' sectionName = some (.obj sf')
      ∧ (∀ k v, (k, v) ∈ es → getField sf' k = some (.str v))
      ∧ (∀ k, k ∉ es.map Prod.fst → getField sf' k = sectionLookup fields sectionName k)

/-- The value of a rule in the first override block of a linter
configuration document. -/
def ruleAt (cfg : Json) (ruleName : String) : Option Json :=
  (jsGetProp cfg "overrides").bind fun ov =>
    match ov with
    | .arr (o :: _) => (jsGetProp o "rules").bind fun rs => jsGetProp rs ruleName
    | _ => none

mutual

/-- Replace the value of every `"prefix"` field of a document by `null`,
recursively: two documents with equal masks differ at most in their
`"prefix"`-keyed settings. -/
def maskJson : Json → Json
  | .obj fs => .obj (maskJsonFields fs)
  | .arr xs => .arr (maskJsonList xs)
  | j => j

/-- `maskJson` on array elements. -/
def maskJsonList : List Json → List Json
  | [] => []
  | x :: xs => maskJson x :: maskJsonList xs

/-- `maskJson` on object fields. -/
def maskJsonFields : List (String × Json) → List (String × Json)
  | [] => []
  | (k, v) :: fs => (k, if k = "prefix" then Json.null else maskJson v) :: maskJsonFields fs

end

theorem getField_isSome_iff (fs : Fields) (k : String) :
    (getField fs k).isSome = true ↔ k ∈ fs.map Prod.fst := by
  induction fs with
  | nil => simp [getField]
  | cons p fs ih =>
      obtain ⟨k', v⟩ := p
      by_cases h : k' = k
      · subst h; simp [getField]
      · simp [getField, h, ih, Ne.symm h]

theorem getField_eq_none_iff (fs : Fields) (k : String) :
    getField fs k = none ↔ k ∉ fs.map Prod.fst := by
  rw [← getField_isSome_iff]
  cases getField fs k <;> simp

theorem hasKey_iff_isSome (fs : Fields) (k : String) :
    hasKey fs k = true ↔ (getField fs k).isSome = true := by
  induction fs with
  | nil => simp [hasKey, getField]
  | cons p fs ih =>
      obtain ⟨k', v⟩ := p
      by_cases h : k' = k
      · subst h; simp [hasKey, getField]
      · simp [hasKey, getField, h, ih]

theorem getField_append_single_self (fs : Fields) (s : String) (x : Json)
    (h : getField fs s = none) :
    getField (fs ++ [(s, x)]) s = some x := by
  induction fs with
  | nil => simp [getField]
  | cons p fs ih =>
      obtain ⟨k', v'⟩ := p
      by_cases hk : k' = s
      · subst hk; simp [getField] at h
      · have h' : getField fs s = none := by simpa [getField, hk] using h
        simp [getField, hk, ih h']

theorem getField_append_single_ne (fs : Fields) (s : String) (x : Json) (k : String)
    (h : k ≠ s) : getField (fs ++ [(s, x)]) k = getField fs k := by
  induction fs with
  | nil => simp [getField, Ne.symm h]
  | cons p fs ih =>
      obtain ⟨k', v'⟩ := p
      by_cases hk : k' = k
      · subst hk; simp [getField]
      · simp [getField, hk, ih]

theorem getField_setField (fs : Fields) (k : String) (v : Json) (k' : String) :
    getField (setField fs k v) k' = if k' = k then some v else getField fs k' := by
  induction fs with
  | nil =>
      by_cases h : k' = k
      · subst h; simp [setField, getField]
      · simp [setField, getField, h, Ne.symm h]
  | cons p fs ih =>
      obtain ⟨q, w⟩ := p
      by_cases hq : q = k
      · by_cases h : k' = k
        · subst hq h; simp [setField, getField]
        · subst hq; simp [setField, getField, h, Ne.symm h]
      · by_cases h : k' = k
        · subst h; simp [setField, getField, hq, ih]
        · simp [setField, getField, hq, h, ih]

theorem getField_setField_self (fs : Fields) (k : String) (v : Json) :
    getField (setField fs k v) k = some v := by
  simp [getField_setField]

theorem getField_setField_ne (fs : Fields) (k : String) (v : Json) (k' : String)
    (h : k' ≠ k) : getField (setField fs k v) k' = getField fs k' := by
  simp [getField_setField, h]

theorem treeRead_create_self (t : Tree) (p c : String) (h : treeRead t p = none) :
    treeRead (treeCreate t p c) p = some c := by
  induction t with
  | nil => simp [treeCreate, treeRead]
  | cons q t ih =>
      obtain ⟨q1, q2⟩ := q
      by_cases hq : q1 = p
      · subst hq; simp [treeRead] at h
      · have h' : treeRead t p = none := by simpa [treeRead, hq] using h
        simpa [treeCreate, treeRead, hq] using ih h'

theorem treeRead_overwrite_self (t : Tree) (p c : String)
    (h : (treeRead t p).isSome = true) :
    treeRead (treeOverwrite t p c) p = some c := by
  induction t with
  | nil => simp [treeRead] at h
  | cons q t ih =>
      obtain ⟨q1, q2⟩ := q
      by_cases hq : q1 = p
      · subst hq; simp [treeOverwrite, treeRead]
      · have h' : (treeRead t p).isSome = true := by simpa [treeRead, hq] using h
        simp [treeOverwrite, treeRead, hq, ih h']

theorem foldl_setField_not_mem (entries : List (String × String)) (sf : Fields)
    (k : String) (h : k ∉ entries.map Prod.fst) :
    getField (entries.foldl (fun acc e => setField acc e.1 (.str e.2)) sf) k =
      getField sf k := by
  induction entries generalizing sf with
  | nil => rfl
  | cons e es ih =>
      obtain ⟨a, b⟩ := e
      simp only [List.map_cons, List.mem_cons, not_or] at h
      obtain ⟨hka, hkes⟩ := h
      simp only [List.foldl_cons]
      rw [ih _ hkes, getField_setField_ne _ _ _ _ hka]

theorem foldl_setField_mem (entries : List (String × String)) (sf : Fields)
    (k v : String) (hmem : (k, v) ∈ entries)
    (hnd : (entries.map Prod.fst).Nodup) :
    getField (entries.foldl (fun acc e => setField acc e.1 (.str e.2)) sf) k =
      some (.str v) := by
  induction entries generalizing sf with
  | nil => simp at hmem
  | cons e es ih =>
      obtain ⟨a, b⟩ := e
      simp only [List.map_cons, List.nodup_cons] at hnd
      obtain ⟨hna, hnd'⟩ := hnd
      rcases List.mem_cons.mp hmem with heq | hmem'
      · injection heq with hk hv
        subst hk hv
        simp only [List.foldl_cons]
        rw [foldl_setField_not_mem _ _ _ hna, getField_setField_self]
      · simp only [List.foldl_cons]
        exact ih _ hmem' hnd'

theorem addDeps_spec (sectionName : String) (fields : Fields)
    (o : Option (List (String × String)))
    (hs : SectionAddable fields sectionName o) (hn : EntriesKeysNodup o) :
    ∃ fields', addDeps sectionName (.obj fields) o = .ok (.obj fields')
      ∧ MergedSection fields fields' sectionName o
      ∧ ∀ k, k ≠ sectionName → getField fields' k = getField fields k := by
  cases o with
  | none => exact ⟨fields, rfl, rfl, fun k _ => rfl⟩
  | some es =>
      have hnd : (es.map Prod.fst).Nodup := hn
      rcases hs with hnone | ⟨sf, hsf⟩
      · have hhk : hasKey fields sectionName = false := by
          cases hb : hasKey fields sectionName with
          | false => rfl
          | true =>
              have := (hasKey_iff_isSome _ _).mp hb
              rw [hnone] at this
              simp at this
        have h1 : getField (fields ++ [(sectionName, Json.obj [])]) sectionName =
            some (.obj []) := getField_append_single_self _ _ _ hnone
        refine ⟨setField (fields ++ [(sectionName, Json.obj [])]) sectionName
            (.obj (es.foldl (fun acc e => setField acc e.1 (.str e.2)) [])), ?_, ?_, ?_⟩
        · unfold addDeps
          simp only [hhk, Bool.false_eq_true, if_false, h1]
        · refine ⟨es.foldl (fun acc e => setField acc e.1 (.str e.2)) [],
            getField_setField_self _ _ _, ?_, ?_⟩
          · intro k v hmem
            exact foldl_setField_mem es [] k v hmem hnd
          · intro k hk
            rw [foldl_setField_not_mem es [] k hk]
            unfold sectionLookup
            rw [hnone]
            rfl
        · intro k hk
          rw [getField_setField_ne _ _ _ _ hk, getField_append_single_ne _ _ _ _ hk]
      · have hhk : hasKey fields sectionName = true := by
          rw [hasKey_iff_isSome, hsf]
          rfl
        refine ⟨setField fields sectionName
            (.obj (es.foldl (fun acc e => setField acc e.1 (.str e.2)) sf)), ?_, ?_, ?_⟩
        · unfold addDeps
          simp only [hhk, if_true, hsf]
        · refine ⟨es.foldl (fun acc e => setField acc e.1 (.str e.2)) sf,
            getField_setField_self _ _ _, ?_, ?_⟩
          · intro k v hmem
            exact foldl_setField_mem es sf k v hmem hnd
          · intro k hk
            rw [foldl_setField_not_mem es sf k hk]
            unfold sectionLookup
            rw [hsf]
        · intro k hk
          rw [getField_setField_ne _ _ _ _ hk]

/-- C1: for every object-shaped manifest and requested dependency set
(whose sections, when requested, are absent from the manifest or
object-shaped there, and whose requested names are distinct, as
`Object.entries` guarantees), `addPackageJsonDeps` succeeds and: every key
of a requested section appears in the result's corresponding section with
the requested value; every pre-existing key of that section not requested
keeps its original value; sections absent from the request are left
untouched (as is every other top-level field); a section absent from the
manifest but present in the request is created as an empty mapping before
the entries are added, so its other keys all read as absent. -/
theorem addPackageJsonDeps_merge (fields : Fields) (r : DepOptions)
    (h1 : SectionAddable fields "dependencies" r.dependencies)
    (h2 : SectionAddable fields "devDependencies" r.devDependencies)
    (h3 : EntriesKeysNodup r.dependencies)
    (h4 : EntriesKeysNodup r.devDependencies) :
    ∃ fields', addPackageJsonDeps (.obj fields) r = .ok (.obj fields')
      ∧ MergedSection fields fields' "dependencies" r.dependencies
      ∧ MergedSection fields fields' "devDependencies" r.devDependencies
      ∧ ∀ k, k ≠ "dependencies" → k ≠ "devDependencies" →
          getField fields' k = getField fields k := by
  obtain ⟨f1, e1, m1, p1⟩ := addDeps_spec "dependencies" fields r.dependencies h1 h3
  have hdev : getField f1 "devDependencies" = getField fields "devDependencies" :=
    p1 _ (by decide)
  have h2' : SectionAddable f1 "devDependencies" r.devDependencies := by
    cases hr : r.devDependencies with
    | none => trivial
    | some es =>
        have h2s := h2
        rw [hr] at h2s
        rcases h2s with hnone | ⟨sf, hsf⟩
        · exact Or.inl (hdev.trans hnone)
        · exact Or.inr ⟨sf, hdev.trans hsf⟩
  obtain ⟨f2, e2, m2, p2⟩ := addDeps_spec "devDependencies" f1 r.devDependencies h2' h4
  have hdep2 : getField f2 "dependencies" = getField f1 "dependencies" :=
    p2 _ (by decide)
  refine ⟨f2, ?_, ?_, ?_, ?_⟩
  · unfold addPackageJsonDeps
    have hguard : (jsTypeof (Json.obj fields) != "object") = false := rfl
    rw [hguard]
    simp only [Bool.false_eq_true, if_false, e1]
    exact e2
  · cases hr : r.dependencies with
    | none =>
        have m1n := m1
        rw [hr] at m1n
        exact hdep2.trans m1n
    | some es =>
        have m1s := m1
        rw [hr] at m1s
        obtain ⟨sf', hsf', hmem, hnot⟩ := m1s
        exact ⟨sf', hdep2.trans hsf', hmem, hnot⟩
  · cases hr : r.devDependencies with
    | none =>
        have m2n := m2
        rw [hr] at m2n
        exact m2n.trans hdev
    | some es =>
        have m2s := m2
        rw [hr] at m2s
        obtain ⟨sf', hsf', hmem, hnot⟩ := m2s
        refine ⟨sf', hsf', hmem, fun k hk => ?_⟩
        rw [hnot k hk]
        unfold sectionLookup
        rw [hdev]
  · intro k hk1 hk2
    rw [p2 _ hk2, p1 _ hk1]

/-- Witness for C1, at the manifest and request of the spec's §8 scenario:
`devDependencies: {"a": "1.0.0"}` merged with `devDependencies:
{"b": "2.0.0"}` keeps `a` and adds `b`, leaving `name` alone. -/
theorem addPackageJsonDeps_merge_witness :
    ∃ fields', addPackageJsonDeps
        (.obj [("name", .str "x"), ("devDependencies", .obj [("a", .str "1.0.0")])])
        ⟨none, some [("b", "2.0.0")]⟩ = .ok (.obj fields')
      ∧ MergedSection [("name", .str "x"), ("devDependencies", .obj [("a", .str "1.0.0")])]
          fields' "dependencies" none
      ∧ MergedSection [("name", .str "x"), ("devDependencies", .obj [("a", .str "1.0.0")])]
          fields' "devDependencies" (some [("b", "2.0.0")])
      ∧ ∀ k, k ≠ "dependencies" → k ≠ "devDependencies" →
          getField fields' k =
            getField [("name", .str "x"), ("devDependencies", .obj [("a", .str "1.0.0")])] k :=
  addPackageJsonDeps_merge
    [("name", .str "x"), ("devDependencies", .obj [("a", .str "1.0.0")])]
    ⟨none, some [("b", "2.0.0")]⟩
    trivial (Or.inr ⟨[("a", .str "1.0.0")], rfl⟩) trivial (by simp [EntriesKeysNodup])

/-- A concrete comment stripper for witnesses: the identity. -/
def strip0 : String → String := fun s => s

/-- A concrete parser for witnesses: every text parses to the empty
object. -/
def parse0 : String → Except String Json := fun _ => .ok (.obj [])

/-- C6: `read` fails with the not-found error exactly when the path does
not exist in the tree; when it exists with some contents, the contents are
comment-stripped and parsed, a parse failure becomes the parse error
carrying the path and the parser's message, and a parse success returns the
parsed document.  `strip` and `parse` are the external `stripJsonComments`
and `JSON.parse` libraries, quantified over. -/
theorem readJsonInTree_spec (strip : String → String) (parse : String → Except String Json)
    (host : Tree) (path : String) :
    (readJsonInTree strip parse host path = .error (.notFound path) ↔
      treeExists host path = false)
    ∧ (∀ c, treeRead host path = some c →
        (∀ j, parse (strip c) = .ok j → readJsonInTree strip parse host path = .ok j)
        ∧ (∀ m, parse (strip c) = .error m →
            readJsonInTree strip parse host path = .error (.parseError path m))) := by
  have hnone : treeRead host path = none →
      readJsonInTree strip parse host path = .error (.notFound path) := by
    intro hr
    simp [readJsonInTree, hr]
  have hok : ∀ c j, treeRead host path = some c → parse (strip c) = .ok j →
      readJsonInTree strip parse host path = .ok j := by
    intro c j hr hp
    simp [readJsonInTree, hr, hp]
  have herr : ∀ c m, treeRead host path = some c → parse (strip c) = .error m →
      readJsonInTree strip parse host path = .error (.parseError path m) := by
    intro c m hr hp
    simp [readJsonInTree, hr, hp]
  refine ⟨⟨?_, ?_⟩, ?_⟩
  · intro h
    unfold treeExists
    cases hr : treeRead host path with
    | none => rfl
    | some c =>
        exfalso
        cases hp : parse (strip c) with
        | ok j => rw [hok c j hr hp] at h; simp at h
        | error m => rw [herr c m hr hp] at h; simp at h
  · intro h
    unfold treeExists at h
    cases hr : treeRead host path with
    | none => exact hnone hr
    | some c => rw [hr] at h; simp at h
  · intro c hc
    exact ⟨fun j hj => hok c j hc hj, fun m hm => herr c m hc hm⟩

/-- Witness for C6: a present file whose (stripped) contents parse is
returned parsed. -/
theorem readJsonInTree_spec_witness :
    readJsonInTree strip0 parse0 [("f.json", "x")] "f.json" = .ok (.obj []) :=
  ((readJsonInTree_spec strip0 parse0 [("f.json", "x")] "f.json").2 "x" rfl).1 (.obj []) rfl

/-- C2: `write` on an absent path creates it with the serialization of the
transform applied to an empty object; on an existing path it reads the
document through `read`, applies the transform and overwrites the path with
the serialization of the result (propagating `read`'s failure). -/
theorem updateJsonInTree_spec (strip : String → String) (parse : String → Except String Json)
    (path : String) (cb : Json → Json) (host : Tree) :
    (treeExists host path = false →
      updateJsonInTree strip parse path cb host =
        .ok (treeCreate host path (serializeJson (cb (.obj [])))))
    ∧ (treeExists host path = true →
        (∀ j, readJsonInTree strip parse host path = .ok j →
          updateJsonInTree strip parse path cb host =
            .ok (treeOverwrite host path (serializeJson (cb j))))
        ∧ (∀ e, readJsonInTree strip parse host path = .error e →
          updateJsonInTree strip parse path cb host = .error e)) := by
  constructor
  · intro h
    unfold updateJsonInTree
    simp only [h, Bool.not_false, if_true]
  · intro h
    constructor
    · intro j hj
      unfold updateJsonInTree
      simp only [h, Bool.not_true, Bool.false_eq_true, if_false, hj]
    · intro e he
      unfold updateJsonInTree
      simp only [h, Bool.not_true, Bool.false_eq_true, if_false, he]

/-- Witness for C2: writing to an absent path creates it with the
serialized transform of the empty object. -/
theorem updateJsonInTree_spec_witness :
    updateJsonInTree strip0 parse0 "new.json" (fun j => j) [] =
      .ok (treeCreate [] "new.json" (serializeJson (Json.obj []))) :=
  (updateJsonInTree_spec strip0 parse0 "new.json" (fun j => j) []).1 rfl

theorem charListLe_total : ∀ as bs : List Char, charListLe as bs = true ∨ charListLe bs as = true
  | [], _ => Or.inl rfl
  | _ :: _, [] => Or.inr rfl
  | a :: as, b :: bs => by
      rcases Nat.lt_trichotomy a.toNat b.toNat with h | h | h
      · left; simp [charListLe, h]
      · have h1 : ¬a.toNat < b.toNat := by omega
        have h2 : ¬b.toNat < a.toNat := by omega
        rcases charListLe_total as bs with ht | ht
        · left; simp [charListLe, h1, h2, ht]
        · right; simp [charListLe, h1, h2, ht]
      · right; simp [charListLe, h]

theorem charListLe_trans : ∀ as bs cs : List Char, charListLe as bs = true →
    charListLe bs cs = true → charListLe as cs = true
  | [], _, _, _, _ => rfl
  | _ :: _, [], _, h1, _ => by simp [charListLe] at h1
  | _ :: _, _ :: _, [], _, h2 => by simp [charListLe] at h2
  | a :: as, b :: bs, c :: cs, h1, h2 => by
      by_cases hab : a.toNat < b.toNat
      · by_cases hbc : b.toNat < c.toNat
        · simp [charListLe, show a.toNat < c.toNat from by omega]
        · by_cases hcb : c.toNat < b.toNat
          · simp only [charListLe] at h2
            simp [hbc, hcb] at h2
          · simp [charListLe, show a.toNat < c.toNat from by omega]
      · by_cases hba : b.toNat < a.toNat
        · simp only [charListLe] at h1
          simp [hab, hba] at h1
        · have tail1 : charListLe as bs = true := by
            simp only [charListLe] at h1
            simpa [hab, hba] using h1
          by_cases hbc : b.toNat < c.toNat
          · simp [charListLe, show a.toNat < c.toNat from by omega]
          · by_cases hcb : c.toNat < b.toNat
            · simp only [charListLe] at h2
              simp [hbc, hcb] at h2
            · have tail2 : charListLe bs cs = true := by
                simp only [charListLe] at h2
                simpa [hbc, hcb] using h2
              have hac : ¬a.toNat < c.toNat := by omega
              have hca : ¬c.toNat < a.toNat := by omega
              simp [charListLe, hac, hca, charListLe_trans as bs cs tail1 tail2]

theorem strLe_total (a b : String) : strLe a b = true ∨ strLe b a = true :=
  charListLe_total a.data b.data

theorem strLe_trans {a b c : String} (h1 : strLe a b = true) (h2 : strLe b c = true) :
    strLe a c = true :=
  charListLe_trans a.data b.data c.data h1 h2

theorem orderedInsertKey_perm (k : String) (l : List String) :
    (orderedInsertKey k l).Perm (k :: l) := by
  induction l with
  | nil => simp [orderedInsertKey]
  | cons x xs ih =>
      by_cases h : strLe k x = true
      · simp [orderedInsertKey, h]
      · simp only [orderedInsertKey, h, if_false]
        exact (ih.cons x).trans (List.Perm.swap k x xs)

theorem sortStrings_perm (l : List String) : (sortStrings l).Perm l := by
  induction l with
  | nil => exact List.Perm.refl _
  | cons x xs ih =>
      exact (orderedInsertKey_perm x (sortStrings xs)).trans (ih.cons x)

theorem pairwise_orderedInsertKey (k : String) (l : List String)
    (hl : l.Pairwise (fun a b => strLe a b = true)) :
    (orderedInsertKey k l).Pairwise (fun a b => strLe a b = true) := by
  induction l with
  | nil => simp [orderedInsertKey]
  | cons x xs ih =>
      rcases List.pairwise_cons.mp hl with ⟨hx, hxs⟩
      by_cases h : strLe k x = true
      · simp only [orderedInsertKey, h, if_true]
        refine List.pairwise_cons.mpr ⟨?_, hl⟩
        intro y hy
        rcases List.mem_cons.mp hy with rfl | hy'
        · exact h
        · exact strLe_trans h (hx y hy')
      · have hxk : strLe x k = true := (strLe_total k x).resolve_left h
        simp only [orderedInsertKey, h, if_false]
        refine List.pairwise_cons.mpr ⟨?_, ih hxs⟩
        intro y hy
        rcases List.mem_cons.mp ((orderedInsertKey_perm k xs).mem_iff.mp hy) with rfl | hy'
        · exact hxk
        · exact hx y hy'

theorem pairwise_sortStrings (l : List String) :
    (sortStrings l).Pairwise (fun a b => strLe a b = true) := by
  induction l with
  | nil => simp [sortStrings]
  | cons x xs ih => exact pairwise_orderedInsertKey x _ ih

theorem sortStrings_eq_self (l : List String)
    (h : l.Pairwise (fun a b => strLe a b = true)) : sortStrings l = l := by
  induction l with
  | nil => rfl
  | cons x xs ih =>
      rcases List.pairwise_cons.mp h with ⟨hx, hxs⟩
      unfold sortStrings
      rw [ih hxs]
      cases xs with
      | nil => rfl
      | cons y ys => simp [orderedInsertKey, hx y (List.mem_cons_self y ys)]

theorem getField_map_graph (g : String → Json) (ks : List String) (k : String)
    (h : k ∈ ks) : getField (ks.map (fun k' => (k', g k'))) k = some (g k) := by
  induction ks with
  | nil => simp at h
  | cons a as ih =>
      by_cases ha : a = k
      · subst ha; simp [getField]
      · rcases List.mem_cons.mp h with rfl | h'
        · exact absurd rfl ha
        · simp [getField, ha, ih h']

theorem getField_map_graph_not_mem (g : String → Json) (ks : List String) (k : String)
    (h : k ∉ ks) : getField (ks.map (fun k' => (k', g k'))) k = none := by
  induction ks with
  | nil => rfl
  | cons a as ih =>
      simp only [List.mem_cons, not_or] at h
      simp [getField, Ne.symm h.1, ih h.2]

theorem keys_sortObjectByKeys (o : Fields) :
    (sortObjectByKeys o).map Prod.fst = sortStrings (o.map Prod.fst) := by
  simp [sortObjectByKeys, List.map_map, Function.comp_def]

/-- C4: the key sorter is idempotent, binds exactly the keys of its input
to exactly their original values (so key set and values are preserved; the
input itself is untouched, the model being pure), orders the keys of its
output lexicographically by character code, and maps the empty mapping to
the empty mapping. -/
theorem sortObjectByKeys_spec (m : Fields) :
    sortObjectByKeys (sortObjectByKeys m) = sortObjectByKeys m
    ∧ (∀ k, getField (sortObjectByKeys m) k = getField m k)
    ∧ ((sortObjectByKeys m).map Prod.fst).Perm (m.map Prod.fst)
    ∧ ((sortObjectByKeys m).map Prod.fst).Pairwise (fun a b => strLe a b = true)
    ∧ sortObjectByKeys ([] : Fields) = [] := by
  have hperm : (sortStrings (m.map Prod.fst)).Perm (m.map Prod.fst) := sortStrings_perm _
  have hvals : ∀ k, getField (sortObjectByKeys m) k = getField m k := by
    intro k
    by_cases hk : k ∈ m.map Prod.fst
    · have hk' : k ∈ sortStrings (m.map Prod.fst) := hperm.mem_iff.mpr hk
      obtain ⟨v, hv⟩ := Option.isSome_iff_exists.mp ((getField_isSome_iff m k).mpr hk)
      unfold sortObjectByKeys
      rw [getField_map_graph _ _ _ hk', hv]
      rfl
    · have hk' : k ∉ sortStrings (m.map Prod.fst) := fun hh => hk (hperm.mem_iff.mp hh)
      unfold sortObjectByKeys
      rw [getField_map_graph_not_mem _ _ _ hk']
      exact ((getField_eq_none_iff m k).mpr hk).symm
  refine ⟨?_, hvals, ?_, ?_, rfl⟩
  · have hself : sortStrings ((sortObjectByKeys m).map Prod.fst) =
        (sortObjectByKeys m).map Prod.fst := by
      rw [keys_sortObjectByKeys]
      exact sortStrings_eq_self _ (pairwise_sortStrings _)
    show (sortStrings ((sortObjectByKeys m).map Prod.fst)).map
        (fun k => (k, (getField (sortObjectByKeys m) k).getD Json.null)) = sortObjectByKeys m
    rw [hself, keys_sortObjectByKeys]
    show (sortStrings (m.map Prod.fst)).map
        (fun k => (k, (getField (sortObjectByKeys m) k).getD Json.null)) =
      (sortStrings (m.map Prod.fst)).map
        (fun k => (k, (getField m k).getD Json.null))
    apply List.map_congr_left
    intro k _
    rw [hvals k]
  · rw [keys_sortObjectByKeys]
    exact hperm
  · rw [keys_sortObjectByKeys]
    exact pairwise_sortStrings _

/-- Counterexample to C5: merging into a `null` manifest is not a silent
no-op — `typeof null` is `"object"`, so the guard lets `null` through and
the `in` operator throws a `TypeError` as soon as a requested section is
present. -/
theorem addPackageJsonDeps_null_counterexample :
    addPackageJsonDeps Json.null ⟨none, some [("a", "1")]⟩ =
      .error (.typeError "Cannot use 'in' operator to search for 'devDependencies' in null")
    ∧ addPackageJsonDeps Json.null ⟨none, some [("a", "1")]⟩ ≠ .ok Json.null := by
  refine ⟨rfl, fun h => ?_⟩
  rw [show addPackageJsonDeps Json.null ⟨none, some [("a", "1")]⟩ =
      .error (.typeError "Cannot use 'in' operator to search for 'devDependencies' in null")
    from rfl] at h
  exact Except.noConfusion h

/-- C5 amended: for every value whose JavaScript `typeof` is not
`"object"` — strings, numbers, booleans, but not `null` — and every
requested dependency set, the merge is a silent no-op returning the value
unchanged.  (`null` slips past the `typeof` guard and makes the merge throw
whenever a section is requested, as the counterexample shows.) -/
theorem addPackageJsonDeps_nonobject_noop (v : Json) (r : DepOptions)
    (h : jsTypeof v ≠ "object") : addPackageJsonDeps v r = .ok v := by
  unfold addPackageJsonDeps
  have hb : (jsTypeof v != "object") = true := bne_iff_ne.mpr h
  rw [hb]
  simp

/-- Witness for C5 (amended): a string manifest is returned unchanged. -/
theorem addPackageJsonDeps_nonobject_noop_witness :
    addPackageJsonDeps (Json.str "not a manifest") ⟨none, some [("a", "1")]⟩ =
      .ok (Json.str "not a manifest") :=
  addPackageJsonDeps_nonobject_noop (Json.str "not a manifest")
    ⟨none, some [("a", "1")]⟩ (by decide)

/-- C8: the workspace descriptor path is the first existing candidate among
`/workspace.json`, `/angular.json`, `/.angular.json`, in exactly that
priority order; a later candidate is selected only when every earlier one
is absent, and no path is produced when all are absent. -/
theorem getWorkspacePath_priority (host : Tree) :
    getWorkspacePath host =
      if treeExists host "/workspace.json" then some "/workspace.json"
      else if treeExists host "/angular.json" then some "/angular.json"
      else if treeExists host "/.angular.json" then some "/.angular.json"
      else none := by
  unfold getWorkspacePath
  cases h1 : treeExists host "/workspace.json" <;>
    cases h2 : treeExists host "/angular.json" <;>
      cases h3 : treeExists host "/.angular.json" <;>
        simp [List.filter, h1, h2, h3]

/-- C10: a non-empty explicit project hint is returned unchanged, for every
workspace tree (so the descriptor is neither read nor used to validate the
hint), and an empty hint behaves exactly like an absent one, falling
through to descriptor-based resolution. -/
theorem determineTargetProjectName_hint (strip : String → String)
    (parse : String → Except String Json) (tree : Tree) (s : String) :
    (s ≠ "" → determineTargetProjectName strip parse tree (some s) = .ok (some s))
    ∧ determineTargetProjectName strip parse tree (some "") =
        determineTargetProjectName strip parse tree none := by
  constructor
  · intro h
    unfold determineTargetProjectName
    have hb : jsOptTruthy (some s) = true := bne_iff_ne.mpr h
    rw [hb]
    simp
  · rfl

/-- Witness for C10: the hint `"web"` is returned as-is even on an empty
tree with no descriptor at all. -/
theorem determineTargetProjectName_hint_witness :
    determineTargetProjectName strip0 parse0 [] (some "web") = .ok (some "web") :=
  (determineTargetProjectName_hint strip0 parse0 [] "web").1 (by decide)

/-- C7: with a falsy project hint and a workspace descriptor whose
`projects` mapping holds two or more projects, resolution returns no
selection and the orchestration aborts with the ambiguity error carrying
the user-actionable message naming the required command-line form — for
every external schematic `ext`, which is never invoked, so no step that
creates or overwrites a file runs; with exactly one project, that project
is implicitly selected and (when its name is non-empty, i.e. truthy) the
orchestration proceeds into the chained rules with it. -/
theorem configureLinters_project_resolution (strip : String → String)
    (parse : String → Except String Json) (ext : String → Tree → Except JsError Tree)
    (hint : Option String) (host : Tree) (wp : String) (wj : Json) (projs : Fields)
    (hhint : jsOptTruthy hint = false)
    (hwp : getWorkspacePath host = some wp)
    (hread : readJsonInTree strip parse host wp = .ok wj)
    (hproj : jsGetProp wj "projects" = some (.obj projs)) :
    (2 ≤ projs.length →
      determineTargetProjectName strip parse host hint = .ok none
      ∧ configureLinters strip parse ext hint host =
          .error (.userError ambiguousProjectMessage))
    ∧ (∀ n v, projs = [(n, v)] →
        determineTargetProjectName strip parse host hint = .ok (some n)
        ∧ (n ≠ "" → configureLinters strip parse ext hint host =
            lintersChain strip parse ext n host)) := by
  have hdet : determineTargetProjectName strip parse host hint =
      (match projs.map Prod.fst with
       | [p] => Except.ok (some p)
       | _ => Except.ok none) := by
    unfold determineTargetProjectName
    rw [hhint]
    simp only [Bool.false_eq_true, if_false, hwp, hread, hproj, Option.getD_some, jsObjectKeys]
  constructor
  · intro hlen
    obtain ⟨p1, rest, rfl⟩ : ∃ p1 rest, projs = p1 :: rest := by
      cases projs with
      | nil => simp at hlen
      | cons a l => exact ⟨a, l, rfl⟩
    obtain ⟨p2, rest2, rfl⟩ : ∃ p2 rest2, rest = p2 :: rest2 := by
      cases rest with
      | nil => simp at hlen
      | cons a l => exact ⟨a, l, rfl⟩
    have hd : determineTargetProjectName strip parse host hint = .ok none := by
      rw [hdet]
      simp only [List.map_cons]
    refine ⟨hd, ?_⟩
    unfold configureLinters
    rw [hd]
  · intro n v hpr
    subst hpr
    have hd : determineTargetProjectName strip parse host hint = .ok (some n) := by
      rw [hdet]
      simp only [List.map_cons, List.map_nil]
    refine ⟨hd, fun hne => ?_⟩
    unfold configureLinters
    rw [hd]
    simp only [if_neg hne]

/-- A concrete parser for the C7 witness: every text parses to a
two-project workspace descriptor. -/
def parseTwoProjects : String → Except String Json :=
  fun _ => .ok (.obj [("projects", .obj [("app-a", .obj []), ("app-b", .obj [])])])

/-- A concrete external schematic for the C7 witness: the identity rule. -/
def ext0 : String → Tree → Except JsError Tree := fun _ t => .ok t

/-- Witness for C7: two projects and no hint abort with the ambiguity
error. -/
theorem configureLinters_project_resolution_witness :
    configureLinters strip0 parseTwoProjects ext0 none [("/angular.json", "w")] =
      .error (.userError ambiguousProjectMessage) :=
  ((configureLinters_project_resolution strip0 parseTwoProjects ext0 none
      [("/angular.json", "w")] "/angular.json"
      (.obj [("projects", .obj [("app-a", .obj []), ("app-b", .obj [])])])
      [("app-a", .obj []), ("app-b", .obj [])]
      rfl rfl rfl rfl).1 (by decide)).2

theorem updateJsonInTree_const_ok (strip : String → String)
    (parse : String → Except String Json) (path : String) (v : Json) (host : Tree)
    (t' : Tree) (h : updateJsonInTree strip parse path (fun _ => v) host = .ok t') :
    treeRead t' path = some (serializeJson v) := by
  unfold updateJsonInTree at h
  cases hex : treeExists host path with
  | true =>
      rw [hex] at h
      simp only [Bool.not_true, Bool.false_eq_true, if_false] at h
      cases hr : readJsonInTree strip parse host path with
      | error e => rw [hr] at h; exact absurd h (by simp)
      | ok j =>
          rw [hr] at h
          injection h with h'
          subst h'
          exact treeRead_overwrite_self _ _ _ hex
  | false =>
      rw [hex] at h
      simp only [Bool.not_false, if_true] at h
      injection h with h'
      subst h'
      apply treeRead_create_self
      unfold treeExists at hex
      cases ht : treeRead host path with
      | none => rfl
      | some c => rw [ht] at hex; simp at hex

/-- C9: the root-level linter configuration document written by
`updateESLintConfigForProject` is the serialized `createProjectESLintConfig`
built from the resolved project descriptor's `prefix`, with `"app"`
substituted when the descriptor has no `prefix`; that prefix value is
exactly what the component-selector and directive-selector rules carry, and
configurations built from any two prefixes agree everywhere outside their
`"prefix"` settings (all other rule settings are input-independent
constants). -/
theorem updateESLintConfig_prefix (strip : String → String)
    (parse : String → Except String Json) (projectName : String) (tree : Tree)
    (aj pv pd : Json)
    (hread : readJsonInTree strip parse tree "angular.json" = .ok aj)
    (hpv : jsGetProp aj "projects" = some pv)
    (hpd : jsGetProp pv projectName = some pd)
    (hw : treeExists tree ".eslintrc.json" = false ∨
      ∃ j0, readJsonInTree strip parse tree ".eslintrc.json" = .ok j0) :
    ∃ t', updateESLintConfigForProject strip parse projectName tree = .ok t'
      ∧ treeRead t' ".eslintrc.json" =
          some (serializeJson (createProjectESLintConfig
            ((jsGetProp pd "prefix").getD (.str "app"))))
      ∧ ruleAt (createProjectESLintConfig ((jsGetProp pd "prefix").getD (.str "app")))
          "@angular-eslint/component-selector" =
        some (.arr [.str "error", .obj [("type", .str "element"),
          ("prefix", (jsGetProp pd "prefix").getD (.str "app")),
          ("style", .str "kebab-case")]])
      ∧ ruleAt (createProjectESLintConfig ((jsGetProp pd "prefix").getD (.str "app")))
          "@angular-eslint/directive-selector" =
        some (.arr [.str "error", .obj [("type", .str "attribute"),
          ("prefix", (jsGetProp pd "prefix").getD (.str "app")),
          ("style", .str "camelCase")]])
      ∧ (jsGetProp pd "prefix" = none →
          (jsGetProp pd "prefix").getD (.str "app") = .str "app")
      ∧ ∀ a b : Json,
          maskJson (createProjectESLintConfig a) = maskJson (createProjectESLintConfig b) := by
  have hupd : updateESLintConfigForProject strip parse projectName tree =
      updateJsonInTree strip parse ".eslintrc.json"
        (fun _ => createProjectESLintConfig ((jsGetProp pd "prefix").getD (.str "app")))
        tree := by
    unfold updateESLintConfigForProject
    simp only [hread, hpv, hpd]
  obtain ⟨t', ht'⟩ : ∃ t', updateJsonInTree strip parse ".eslintrc.json"
      (fun _ => createProjectESLintConfig ((jsGetProp pd "prefix").getD (.str "app")))
      tree = .ok t' := by
    rcases hw with hno | ⟨j0, hj0⟩
    · refine ⟨treeCreate tree ".eslintrc.json" (serializeJson (createProjectESLintConfig
        ((jsGetProp pd "prefix").getD (.str "app")))), ?_⟩
      unfold updateJsonInTree
      rw [hno]
      rfl
    · have hex : treeExists tree ".eslintrc.json" = true := by
        cases ht : treeRead tree ".eslintrc.json" with
        | none =>
            unfold readJsonInTree at hj0
            rw [ht] at hj0
            exact absurd hj0 (by simp)
        | some c =>
            unfold treeExists
            rw [ht]
            rfl
      refine ⟨treeOverwrite tree ".eslintrc.json" (serializeJson (createProjectESLintConfig
        ((jsGetProp pd "prefix").getD (.str "app")))), ?_⟩
      unfold updateJsonInTree
      rw [hex]
      simp only [Bool.not_true, Bool.false_eq_true, if_false, hj0]
  refine ⟨t', hupd.trans ht', updateJsonInTree_const_ok _ _ _ _ _ _ ht', rfl, rfl,
    fun h => by rw [h]; rfl, fun a b => rfl⟩

/-- A concrete parser for the C9 witness: every text parses to a
one-project descriptor whose `web` project has a root and no prefix. -/
def parseOneProject : String → Except String Json :=
  fun _ => .ok (.obj [("projects", .obj [("web", .obj [("root", .str "apps/web")])])])

/-- Witness for C9: with no declared prefix the written `.eslintrc.json` is
the serialized configuration built from the default prefix `"app"`. -/
theorem updateESLintConfig_prefix_witness :
    ∃ t', updateESLintConfigForProject strip0 parseOneProject "web"
        [("angular.json", "w")] = .ok t'
      ∧ treeRead t' ".eslintrc.json" =
          some (serializeJson (createProjectESLintConfig (.str "app"))) := by
  obtain ⟨t', h1, h2, _⟩ := updateESLintConfig_prefix strip0 parseOneProject "web"
    [("angular.json", "w")]
    (.obj [("projects", .obj [("web", .obj [("root", .str "apps/web")])])])
    (.obj [("web", .obj [("root", .str "apps/web")])])
    (.obj [("root", .str "apps/web")])
    rfl rfl rfl (Or.inl rfl)
  exact ⟨t', h1, h2⟩

theorem updateJsonInTree_ok_shape (strip : String → String)
    (parse : String → Except String Json) (path : String) (cb : Json → Json)
    (host : Tree) (t' : Tree) (h : updateJsonInTree strip parse path cb host = .ok t') :
    ∃ jv, treeRead t' path = some (serializeJson (cb jv)) := by
  unfold updateJsonInTree at h
  cases hex : treeExists host path with
  | true =>
      rw [hex] at h
      simp only [Bool.not_true, Bool.false_eq_true, if_false] at h
      cases hr : readJsonInTree strip parse host path with
      | error e => rw [hr] at h; exact absurd h (by simp)
      | ok j =>
          rw [hr] at h
          injection h with h'
          subst h'
          exact ⟨j, treeRead_overwrite_self _ _ _ hex⟩
  | false =>
      rw [hex] at h
      simp only [Bool.not_false, if_true] at h
      injection h with h'
      subst h'
      refine ⟨.obj [], treeRead_create_self _ _ _ ?_⟩
      unfold treeExists at hex
      cases ht : treeRead host path with
      | none => rfl
      | some c => rw [ht] at hex; simp at hex

theorem addDevDepsPackages_ok_shape (parse : String → Except String Json)
    (table : List (String × String)) (host : Tree) (t' : Tree)
    (h : addDevDepsPackages parse table host = .ok t') :
    ∃ fs : Fields, treeRead t' "package.json" = some (jsonStringify "    " (.obj fs)) := by
  unfold addDevDepsPackages at h
  cases hex : treeExists host "package.json" with
  | false => rw [hex] at h; simp at h
  | true =>
      rw [hex] at h
      simp only [Bool.not_true, Bool.false_eq_true, if_false] at h
      cases ht : treeRead host "package.json" with
      | none => simp only [ht] at h; exact Except.noConfusion h
      | some contents =>
          simp only [ht] at h
          cases hp : parse contents with
          | error m => simp only [hp] at h; exact Except.noConfusion h
          | ok json =>
              simp only [hp] at h
              cases ha : addPackageJsonDeps json ⟨none, some table⟩ with
              | error e => simp only [ha] at h; exact Except.noConfusion h
              | ok json1 =>
                  simp only [ha] at h
                  cases json1 with
                  | obj fs =>
                      cases hd : getField fs "devDependencies" with
                      | none => simp only [hd] at h; exact Except.noConfusion h
                      | some dv =>
                          cases dv with
                          | obj dd =>
                              simp only [hd] at h
                              injection h with h'
                              subst h'
                              exact ⟨_, treeRead_overwrite_self _ _ _ hex⟩
                          | null => simp only [hd] at h; exact Except.noConfusion h
                          | bool b => simp only [hd] at h; exact Except.noConfusion h
                          | num n => simp only [hd] at h; exact Except.noConfusion h
                          | str s2 => simp only [hd] at h; exact Except.noConfusion h
                          | arr xs => simp only [hd] at h; exact Except.noConfusion h
                  | null => exact Except.noConfusion h
                  | bool b => exact Except.noConfusion h
                  | num n => exact Except.noConfusion h
                  | str s2 => exact Except.noConfusion h
                  | arr xs => exact Except.noConfusion h

theorem stringify_obj_last_char (gap : String) (fs : Fields) :
    (jsonStringify gap (.obj fs)).data.getLast? = some '\x7d' := by
  have hconcat : ∀ s : String, (s ++ "\x7d").data.getLast? = some '\x7d' := by
    intro s
    rw [String.data_append, show ("\x7d" : String).data = ['\x7d'] from rfl]
    exact List.getLast?_concat _
  cases fs with
  | nil => rfl
  | cons f fs =>
      unfold jsonStringify stringifyVal
      exact hconcat _

/-- The content stored at `package.json` after running `addPrettierPackages`
on a one-file workspace whose manifest parses (under `parse0`) to the empty
object; `none` if the rule fails or writes nothing. -/
def manifestWriteResult : Option String :=
  match addPrettierPackages parse0 [("package.json", "p")] with
  | .ok t => treeRead t "package.json"
  | .error _ => none

/-- Counterexample to C3: the root manifest write is not in the two-space,
trailing-newline serialization format.  On a concrete workspace the content
written to `package.json` ends in the closing brace (no trailing newline)
and opens with a four-space-indented line. -/
theorem serialization_manifest_counterexample :
    manifestWriteResult.map (fun c => c.data.getLast?) = some (some '\x7d')
    ∧ manifestWriteResult.map (fun c => c.data.take 6) = some ("\x7b\n    ".data)
    ∧ manifestWriteResult.map (fun c => decide (c.data.getLast? = some '\n')) = some false :=
  ⟨rfl, rfl, rfl⟩

/-- C3 amended: documents written through `updateJsonInTree` (the
per-project and root config documents) are serialized by `serializeJson`,
i.e. `JSON.stringify` with two-space indentation plus a trailing newline,
with keys in insertion order; the root manifest `package.json`, however, is
written by the three package rules with four-space indentation and no
trailing newline (object serializations always end in the closing
brace). -/
theorem json_serialization_formats :
    (∀ j, serializeJson j = jsonStringify "  " j ++ "\n")
    ∧ (∀ (strip : String → String) (parse : String → Except String Json) path cb host t',
        updateJsonInTree strip parse path cb host = .ok t' →
        ∃ jv, treeRead t' path = some (serializeJson (cb jv)))
    ∧ (∀ (parse : String → Except String Json) host t',
        addPrettierPackages parse host = .ok t' →
        ∃ fs : Fields, treeRead t' "package.json" = some (jsonStringify "    " (.obj fs)))
    ∧ (∀ (parse : String → Except String Json) host t',
        addESLintPluginsPackages parse host = .ok t' →
        ∃ fs : Fields, treeRead t' "package.json" = some (jsonStringify "    " (.obj fs)))
    ∧ (∀ (parse : String → Except String Json) host t',
        addStylelintPackages parse host = .ok t' →
        ∃ fs : Fields, treeRead t' "package.json" = some (jsonStringify "    " (.obj fs)))
    ∧ (∀ gap fs, (jsonStringify gap (.obj fs)).data.getLast? = some '\x7d')
    ∧ jsonStringify "  " (.obj [("b", .num 1), ("a", .num 2)]) =
        "\x7b\n  \"b\": 1,\n  \"a\": 2\n\x7d" :=
  ⟨fun _ => rfl,
   fun strip parse path cb host t' h => updateJsonInTree_ok_shape strip parse path cb host t' h,
   fun parse host t' h => addDevDepsPackages_ok_shape parse prettierDevDeps host t' h,
   fun parse host t' h => addDevDepsPackages_ok_shape parse eslintPluginsDevDeps host t' h,
   fun parse host t' h => addDevDepsPackages_ok_shape parse stylelintDevDeps host t' h,
   fun gap fs => stringify_obj_last_char gap fs,
   rfl⟩

/-- Witness for C3 (amended): writing a config document to a fresh path
stores the two-space, newline-terminated serialization of the transform's
output. -/
theorem json_serialization_formats_witness :
    ∃ _jv : Json, treeRead (treeCreate [] "cfg.json" (serializeJson (Json.obj [])))
        "cfg.json" = some (serializeJson (Json.obj [])) :=
  json_serialization_formats.2.1 strip0 parse0 "cfg.json" (fun _ => Json.obj []) []
    (treeCreate [] "cfg.json" (serializeJson (Json.obj []))) rfl

end RepoLinters
